import Mathlib

/-!
# Verification of the jams_python flag codec and peripheral utilities

Shallow embedding of `src/ufz/level1/getset_flag.py` (`get_flag`, `set_flag`,
`get_maxflag`), `src/division.py` (`division`) and `src/heaviside.py`
(`heaviside`), with proofs of the spec's claims about them.

Flag codes are modelled as mathematical integers (`Int`), following the spec's
data model ("FlagCode: a non-negative integer whose decimal digit string
encodes a sequence of flag values"); the numpy `int64` carrier and its
overflow are outside the modelled domain, as are the float `log10` rounding
concerns (the spec itself demands floor-exact digit counting, and
`Nat.log 10` below is exactly `floor (log10 ·)` on positive integers).
Arrays are modelled as `List Int`, operations elementwise as in numpy.
Nonpositive entries passed to `set_flag` are outside the source's defined
domain (`np.log10` of a nonpositive value is undefined there); the embedding
gives them the junk digit count `Nat.log 10 0 = 0` via `Int.toNat`, and all
theorems about `set_flag` restrict to positive codes, as the spec does.
-/

namespace Jams

/-- Integer `floor (log10 v)` for `v > 0`: the source's
`ilog10 = np.log10(flags).astype(np.int)` (truncation = floor on
nonnegative reals, exact on integer inputs). -/
def ilog10 (v : Nat) : Nat := Nat.log 10 v

/-- One element of `get_flag` (src/ufz/level1/getset_flag.py, lines 75-91):
`out` starts at `-1`, entries `<= 0` become `-2`, and positive entries with
`ilog10 - n >= 0` become `(flags // 10**(ilog10-n)) % 10`. -/
def get_flag1 (c : Int) (n : Nat) : Int :=
  if c ≤ 0 then -2
  else if n ≤ ilog10 c.toNat then
    ((c.toNat / 10 ^ (ilog10 c.toNat - n)) % 10 : Nat)
  else -1

/-- Array form `get_flag(flags, n)`: elementwise over the array. -/
def get_flag (flags : List Int) (n : Nat) : List Int :=
  flags.map (fun c => get_flag1 c n)

/-- The extension step of `set_flag`: `fflags[jj] *= 10**(n-ilog10[jj])`
for the indices `jj` with `ilog10 < n` (applied to every such entry of the
array, before any index selection). -/
def extend1 (c : Int) (n : Nat) : Int :=
  if ilog10 c.toNat < n then c * 10 ^ (n - ilog10 c.toNat) else c

/-- The additive-delta step of `set_flag` on one (already extended) entry:
`fflags += 10**(ilog10-n) * (iflag-isflags)` with `isflags = get_flag(fflags, n)`. -/
def delta1 (c : Int) (n : Nat) (iflag : Int) : Int :=
  c + 10 ^ (ilog10 c.toNat - n) * (iflag - get_flag1 c n)

/-- One element of `set_flag` without index selection: extend if needed,
recompute the digit count, then shift the digit at position `n` to `iflag`. -/
def set_flag1 (c : Int) (n : Nat) (iflag : Int) : Int :=
  delta1 (extend1 c n) n iflag

/-- The `ii`-selected delta pass: `fflags[ii] += 10**(ilog10[ii]-n) *
(iflag-isflags[ii])`.  numpy's fancy-index `+=` applies the update once per
selected index (buffered), so membership of the index in `ii` decides it. -/
def deltaAt (n : Nat) (iflag : Int) (idx : List Nat) : Nat → List Int → List Int
  | _, [] => []
  | i, c :: cs =>
      (if i ∈ idx then delta1 c n iflag else c) :: deltaAt n iflag idx (i + 1) cs

/-- Array form `set_flag(flags, n, iflag, ii)` (src/ufz/level1/getset_flag.py,
lines 160-178): copy, extend every entry with too few digits, then apply the
additive delta to all entries (`ii = None`) or the selected ones. -/
def set_flag (flags : List Int) (n : Nat) (iflag : Int) (ii : Option (List Nat)) :
    List Int :=
  let fflags := flags.map (fun c => extend1 c n)
  match ii with
  | none => fflags.map (fun c => delta1 c n iflag)
  | some idx => deltaAt n iflag idx 0 fflags

/-- Aggregate `get_maxflag(flags)` (src/ufz/level1/getset_flag.py, lines 240-252):
`cumflag` starts at `-2` everywhere and is the running elementwise maximum
with `get_flag(flags, ii)` for `ii = 1 .. 18`. -/
def get_maxflag (flags : List Int) : List Int :=
  (List.range' 1 18).foldl
    (fun cumflag ii => List.zipWith max cumflag (get_flag flags ii))
    (flags.map (fun _ => -2))

/-- One element of `division` (src/division.py, line 84):
`np.where(abs(b) > abs(prec), a/b, otherwise)`.  Scalars are modelled as
rationals: the guard `|b| > |prec|` is an exact comparison, and on the guarded
branch the quotient is exact in the model. -/
def division1 (a b otherwise prec : ℚ) : ℚ :=
  if |prec| < |b| then a / b else otherwise

/-- Array form of `division` over equal-length arrays. -/
def division (a b : List ℚ) (otherwise prec : ℚ) : List ℚ :=
  List.zipWith (fun x y => division1 x y otherwise prec) a b

/-- One element of `heaviside`'s default branch:
`(np.where(x > 0, 1, 0) - np.where(x < 0, 1, 0) + 1) * 0.5`, then `*= value`. -/
def heaviside1 (t value : ℚ) : ℚ :=
  ((if 0 < t then (1 : ℚ) else 0) - (if t < 0 then 1 else 0) + 1) * (1 / 2) * value

/-- One element of `heaviside`'s `zero=True` branch: `np.where(x > 0, 1, 0)`,
then `*= value`. -/
def heaviside1_zero (t value : ℚ) : ℚ :=
  (if 0 < t then (1 : ℚ) else 0) * value

/-- One element of `heaviside`'s `unitstep=True` branch:
`np.where(x >= 0, 1, 0)`, then `*= value`. -/
def heaviside1_unitstep (t value : ℚ) : ℚ :=
  (if 0 ≤ t then (1 : ℚ) else 0) * value

/-- Full `heaviside(x, value, unitstep, zero)` (src/heaviside.py, lines 83-95):
raises `ValueError` when both `zero` and `unitstep` are set, otherwise the
selected elementwise step function scaled by `value`. -/
def heaviside (x : List ℚ) (value : ℚ) (unitstep zero : Bool) :
    Except String (List ℚ) :=
  if zero && unitstep then
    Except.error "unitstep and zero mutually exclusive."
  else if zero then
    Except.ok (x.map (fun t => heaviside1_zero t value))
  else if unitstep then
    Except.ok (x.map (fun t => heaviside1_unitstep t value))
  else
    Except.ok (x.map (fun t => heaviside1 t value))

/-! ## Nat-level digit arithmetic and claim-side definitions

`repl w e val` replaces the digit of weight `10^e` in `w` by `val`; it is the
value the source's additive delta `fflags + 10**(ilog10-n) * (iflag-isflags)`
computes, expressed at the `Nat` level. -/

/-- Replace the digit of weight `10^e` in `w` by `val`. -/
def repl (w e val : Nat) : Nat :=
  w / 10 ^ (e + 1) * 10 ^ (e + 1) + val * 10 ^ e + w % 10 ^ e

/-- Nat form of the extension step `extend1`. -/
def extendN (m n : Nat) : Nat :=
  if Nat.log 10 m < n then m * 10 ^ (n - Nat.log 10 m) else m

/-- Nat form of one `set_flag` element: extend, then replace the digit at
position `n` (weight `10^(log10 - n)`). -/
def setN (m n vn : Nat) : Nat :=
  repl (extendN m n) (Nat.log 10 (extendN m n) - n) vn

/-- Claim-side transcription of C1's wording for extract: `-2` for inputs
`<= 0`; for positive inputs with digit count `d = floor(log10 value) + 1`,
`-1` when `d - 1 - n < 0`, otherwise `(value // 10^(d-1-n)) mod 10`. -/
def extract_claim (c : Int) (n : Nat) : Int :=
  if c ≤ 0 then -2
  else if ((Nat.log 10 c.toNat + 1 : Nat) : Int) - 1 - (n : Int) < 0 then -1
  else ((c.toNat / 10 ^ (Nat.log 10 c.toNat + 1 - 1 - n)) % 10 : Nat)

/-- The leading (most significant) decimal digit of a positive integer. -/
def leadingDigit (v : Nat) : Nat := v / 10 ^ Nat.log 10 v

/-- Claim-side transcription of C3's wording for aggregate: the maximum of
`-2` and the extracted sub-flags at positions `1 .. 18`. -/
def maxflag_claim (c : Int) : Int :=
  ((List.range' 1 18).map (get_flag1 c)).foldl max (-2)

/-- The two array buffers alive during a `set_flag` call: the caller's input
buffer and the working buffer `fflags` created by `flags.copy()`. -/
structure SetFlagRun where
  input : List Int
  fflags : List Int

/-- Program form of `set_flag` over the buffer state, recording which buffer each
statement of the source writes: `fflags = flags.copy()` allocates a fresh
buffer with the input's contents; the extension write `fflags[jj] *= ...` and
the delta write `fflags += ...` / `fflags[ii] += ...` both target only the
`fflags` buffer. -/
def set_flag_run (flags : List Int) (n : Nat) (iflag : Int)
    (ii : Option (List Nat)) : SetFlagRun :=
  let s0 : SetFlagRun := ⟨flags, flags⟩
  let s1 : SetFlagRun := ⟨s0.input, s0.fflags.map (fun c => extend1 c n)⟩
  match ii with
  | none => ⟨s1.input, s1.fflags.map (fun c => delta1 c n iflag)⟩
  | some idx => ⟨s1.input, deltaAt n iflag idx 0 s1.fflags⟩

theorem pow_log_le (m : Nat) (hm : 0 < m) : 10 ^ Nat.log 10 m ≤ m :=
  Nat.pow_log_le_self 10 hm.ne'

theorem lt_pow_log_succ (m : Nat) : m < 10 ^ (Nat.log 10 m + 1) :=
  Nat.lt_pow_succ_log_self (by norm_num) m

theorem digit_decomp (w e : Nat) :
    w = w / 10 ^ (e + 1) * 10 ^ (e + 1) + w / 10 ^ e % 10 * 10 ^ e + w % 10 ^ e := by
  have h1 : 10 ^ e * (w / 10 ^ e) + w % 10 ^ e = w := Nat.div_add_mod w (10 ^ e)
  have h2 : 10 * (w / 10 ^ e / 10) + w / 10 ^ e % 10 = w / 10 ^ e :=
    Nat.div_add_mod (w / 10 ^ e) 10
  have h3 : w / 10 ^ e / 10 = w / 10 ^ (e + 1) := by
    rw [Nat.div_div_eq_div_mul, pow_succ]
  rw [h3] at h2
  calc w = 10 ^ e * (w / 10 ^ e) + w % 10 ^ e := h1.symm
    _ = 10 ^ e * (10 * (w / 10 ^ (e + 1)) + w / 10 ^ e % 10) + w % 10 ^ e := by rw [h2]
    _ = _ := by ring

theorem repl_tail_lt (w e val : Nat) (hv : val ≤ 9) :
    val * 10 ^ e + w % 10 ^ e < 10 ^ (e + 1) := by
  have hlo : w % 10 ^ e < 10 ^ e := Nat.mod_lt _ (Nat.pos_pow_of_pos e (by norm_num))
  calc val * 10 ^ e + w % 10 ^ e < (val + 1) * 10 ^ e := by nlinarith
    _ ≤ 10 * 10 ^ e := Nat.mul_le_mul_right _ (by omega)
    _ = 10 ^ (e + 1) := by ring

theorem repl_div_succ (w e val : Nat) (hv : val ≤ 9) :
    repl w e val / 10 ^ (e + 1) = w / 10 ^ (e + 1) := by
  have ht := repl_tail_lt w e val hv
  have : repl w e val = 10 ^ (e + 1) * (w / 10 ^ (e + 1)) + (val * 10 ^ e + w % 10 ^ e) := by
    unfold repl; ring
  rw [this, Nat.mul_add_div (Nat.pos_pow_of_pos _ (by norm_num)),
    Nat.div_eq_of_lt ht, Nat.add_zero]

theorem repl_div_high (w e val m : Nat) (hv : val ≤ 9) (hm : e + 1 ≤ m) :
    repl w e val / 10 ^ m = w / 10 ^ m := by
  have hsplit : (10 : Nat) ^ m = 10 ^ (e + 1) * 10 ^ (m - (e + 1)) := by
    rw [← pow_add]; congr 1; omega
  rw [hsplit, ← Nat.div_div_eq_div_mul, ← Nat.div_div_eq_div_mul,
    repl_div_succ w e val hv]

theorem repl_digit (w e val : Nat) (hv : val ≤ 9) :
    repl w e val / 10 ^ e % 10 = val := by
  have hlo : w % 10 ^ e < 10 ^ e := Nat.mod_lt _ (Nat.pos_pow_of_pos e (by norm_num))
  have : repl w e val = 10 ^ e * (w / 10 ^ (e + 1) * 10 + val) + w % 10 ^ e := by
    unfold repl; ring
  rw [this, Nat.mul_add_div (Nat.pos_pow_of_pos _ (by norm_num)),
    Nat.div_eq_of_lt hlo, Nat.add_zero]
  omega

theorem repl_mod_low (w e val m : Nat) (hm : m ≤ e) :
    repl w e val % 10 ^ m = w % 10 ^ m := by
  obtain ⟨k1, hk1⟩ : (10 : Nat) ^ m ∣ 10 ^ (e + 1) := pow_dvd_pow 10 (by omega)
  obtain ⟨k2, hk2⟩ : (10 : Nat) ^ m ∣ 10 ^ e := pow_dvd_pow 10 hm
  have : repl w e val = 10 ^ m * (w / 10 ^ (e + 1) * k1 + val * k2) + w % 10 ^ e := by
    unfold repl; rw [hk1, hk2]; ring
  rw [this, Nat.mul_add_mod, Nat.mod_mod_of_dvd _ ⟨k2, hk2⟩]

theorem repl_digit_low (w e val m : Nat) (hm : m < e) :
    repl w e val / 10 ^ m % 10 = w / 10 ^ m % 10 := by
  have h10 : (10 : Nat) ^ m * 10 = 10 ^ (m + 1) := by ring
  rw [← Nat.mod_mul_right_div_self, ← Nat.mod_mul_right_div_self, h10,
    repl_mod_low w e val (m + 1) (by omega)]

theorem repl_bounds (w e val : Nat) (hw : 0 < w) (hv : val ≤ 9)
    (he : e + 1 ≤ Nat.log 10 w) :
    10 ^ Nat.log 10 w ≤ repl w e val ∧ repl w e val < 10 ^ (Nat.log 10 w + 1) := by
  have hD1 : 10 ^ Nat.log 10 w ≤ w := pow_log_le w hw
  have hD2 : w < 10 ^ (Nat.log 10 w + 1) := lt_pow_log_succ w
  have hpos : (0 : Nat) < 10 ^ (e + 1) := Nat.pos_pow_of_pos _ (by norm_num)
  have hsplit : (10 : Nat) ^ Nat.log 10 w =
      10 ^ (Nat.log 10 w - (e + 1)) * 10 ^ (e + 1) := by
    rw [← pow_add]; congr 1; omega
  have hhi_lb : 10 ^ (Nat.log 10 w - (e + 1)) ≤ w / 10 ^ (e + 1) := by
    rw [Nat.le_div_iff_mul_le hpos]; rw [hsplit] at hD1; exact hD1
  have hhi_ub : w / 10 ^ (e + 1) < 10 ^ (Nat.log 10 w - e) := by
    rw [Nat.div_lt_iff_lt_mul hpos]
    calc w < 10 ^ (Nat.log 10 w + 1) := hD2
      _ = 10 ^ (Nat.log 10 w - e) * 10 ^ (e + 1) := by rw [← pow_add]; congr 1; omega
  constructor
  · calc 10 ^ Nat.log 10 w = 10 ^ (Nat.log 10 w - (e + 1)) * 10 ^ (e + 1) := hsplit
      _ ≤ w / 10 ^ (e + 1) * 10 ^ (e + 1) := Nat.mul_le_mul_right _ hhi_lb
      _ ≤ repl w e val := by unfold repl; omega
  · have ht := repl_tail_lt w e val hv
    calc repl w e val < (w / 10 ^ (e + 1) + 1) * 10 ^ (e + 1) := by unfold repl; nlinarith
      _ ≤ 10 ^ (Nat.log 10 w - e) * 10 ^ (e + 1) := Nat.mul_le_mul_right _ (by omega)
      _ = 10 ^ (Nat.log 10 w + 1) := by rw [← pow_add]; congr 1; omega

theorem repl_log (w e val : Nat) (hw : 0 < w) (hv : val ≤ 9)
    (he : e + 1 ≤ Nat.log 10 w) :
    Nat.log 10 (repl w e val) = Nat.log 10 w :=
  Nat.log_eq_of_pow_le_of_lt_pow (repl_bounds w e val hw hv he).1
    (repl_bounds w e val hw hv he).2

theorem repl_pos (w e val : Nat) (hw : 0 < w) (hv : val ≤ 9)
    (he : e + 1 ≤ Nat.log 10 w) : 0 < repl w e val :=
  lt_of_lt_of_le (Nat.pos_pow_of_pos _ (by norm_num))
    (repl_bounds w e val hw hv he).1

theorem extendN_pos (m n : Nat) (hm : 0 < m) : 0 < extendN m n := by
  unfold extendN
  split
  · exact Nat.mul_pos hm (Nat.pos_pow_of_pos _ (by norm_num))
  · exact hm

theorem extendN_log (m n : Nat) (hm : 0 < m) :
    Nat.log 10 (extendN m n) = max (Nat.log 10 m) n := by
  unfold extendN
  split
  · rename_i h
    have h1 : 10 ^ n ≤ m * 10 ^ (n - Nat.log 10 m) := by
      calc (10 : Nat) ^ n = 10 ^ Nat.log 10 m * 10 ^ (n - Nat.log 10 m) := by
            rw [← pow_add]; congr 1; omega
        _ ≤ m * 10 ^ (n - Nat.log 10 m) :=
            Nat.mul_le_mul_right _ (pow_log_le m hm)
    have h2 : m * 10 ^ (n - Nat.log 10 m) < 10 ^ (n + 1) := by
      calc m * 10 ^ (n - Nat.log 10 m)
          < 10 ^ (Nat.log 10 m + 1) * 10 ^ (n - Nat.log 10 m) :=
            (Nat.mul_lt_mul_right (Nat.pos_pow_of_pos _ (by norm_num))).mpr
              (lt_pow_log_succ m)
        _ = 10 ^ (n + 1) := by rw [← pow_add]; congr 1; omega
    rw [Nat.log_eq_of_pow_le_of_lt_pow h1 h2]
    omega
  · rename_i h
    have : max (Nat.log 10 m) n = Nat.log 10 m := by omega
    rw [this]

theorem extendN_digit_low (m n k : Nat) (hm : 0 < m) (hk : k ≤ Nat.log 10 m) :
    extendN m n / 10 ^ (Nat.log 10 (extendN m n) - k) % 10 =
      m / 10 ^ (Nat.log 10 m - k) % 10 := by
  rw [extendN_log m n hm]
  unfold extendN
  split
  · rename_i h
    have hmax : max (Nat.log 10 m) n = n := by omega
    rw [hmax]
    have hsplit : (10 : Nat) ^ (n - k) =
        10 ^ (n - Nat.log 10 m) * 10 ^ (Nat.log 10 m - k) := by
      rw [← pow_add]; congr 1; omega
    rw [hsplit, ← Nat.div_div_eq_div_mul, Nat.mul_div_assoc m (dvd_refl _),
      Nat.div_self (Nat.pos_pow_of_pos _ (by norm_num)), Nat.mul_one]
  · rename_i h
    have hmax : max (Nat.log 10 m) n = Nat.log 10 m := by omega
    rw [hmax]

theorem extendN_digit_mid (m n k : Nat) (hm : 0 < m) (hd : Nat.log 10 m < k)
    (hk : k ≤ n) :
    extendN m n / 10 ^ (Nat.log 10 (extendN m n) - k) % 10 = 0 := by
  rw [extendN_log m n hm]
  unfold extendN
  have hlt : Nat.log 10 m < n := by omega
  rw [if_pos hlt]
  have hmax : max (Nat.log 10 m) n = n := by omega
  rw [hmax]
  have hsplit : (10 : Nat) ^ (n - Nat.log 10 m) =
      10 ^ (k - Nat.log 10 m) * 10 ^ (n - k) := by
    rw [← pow_add]; congr 1; omega
  rw [hsplit, ← Nat.mul_assoc,
    Nat.mul_div_cancel _ (Nat.pos_pow_of_pos _ (by norm_num))]
  have : (10 : Nat) ∣ m * 10 ^ (k - Nat.log 10 m) :=
    Dvd.dvd.mul_left (dvd_pow_self 10 (by omega)) m
  omega

theorem setN_log (m n vn : Nat) (hm : 0 < m) (hn : 1 ≤ n) (hv : vn ≤ 9) :
    Nat.log 10 (setN m n vn) = max (Nat.log 10 m) n := by
  unfold setN
  have hW : 0 < extendN m n := extendN_pos m n hm
  have hWlog : Nat.log 10 (extendN m n) = max (Nat.log 10 m) n := extendN_log m n hm
  have he : Nat.log 10 (extendN m n) - n + 1 ≤ Nat.log 10 (extendN m n) := by
    rw [hWlog]; omega
  rw [repl_log _ _ _ hW hv he, hWlog]

theorem setN_pos (m n vn : Nat) (hm : 0 < m) (hn : 1 ≤ n) (hv : vn ≤ 9) :
    0 < setN m n vn := by
  unfold setN
  have hW : 0 < extendN m n := extendN_pos m n hm
  have hWlog : Nat.log 10 (extendN m n) = max (Nat.log 10 m) n := extendN_log m n hm
  exact repl_pos _ _ _ hW hv (by rw [hWlog]; omega)

theorem setN_digit_at (m n vn : Nat) (hm : 0 < m) (hn : 1 ≤ n) (hv : vn ≤ 9) :
    setN m n vn / 10 ^ (Nat.log 10 (setN m n vn) - n) % 10 = vn := by
  rw [setN_log m n vn hm hn hv]
  unfold setN
  have hWlog : Nat.log 10 (extendN m n) = max (Nat.log 10 m) n := extendN_log m n hm
  rw [← hWlog]
  exact repl_digit _ _ _ hv

theorem setN_digit_keep (m n vn k : Nat) (hm : 0 < m) (hn : 1 ≤ n) (hv : vn ≤ 9)
    (hk : k ≤ Nat.log 10 m) (hkn : k ≠ n) :
    setN m n vn / 10 ^ (Nat.log 10 (setN m n vn) - k) % 10 =
      m / 10 ^ (Nat.log 10 m - k) % 10 := by
  rw [setN_log m n vn hm hn hv]
  unfold setN
  have hW : 0 < extendN m n := extendN_pos m n hm
  have hWlog : Nat.log 10 (extendN m n) = max (Nat.log 10 m) n := extendN_log m n hm
  rcases Nat.lt_or_ge k n with hlt | hge
  · have hhigh : Nat.log 10 (extendN m n) - n + 1 ≤ max (Nat.log 10 m) n - k := by
      rw [hWlog]; omega
    rw [repl_div_high _ _ _ _ hv hhigh]
    have h2 := extendN_digit_low m n k hm hk
    rw [hWlog] at h2
    exact h2
  · have hnk : n < k := by omega
    have hWm : extendN m n = m := by
      unfold extendN; rw [if_neg (by omega)]
    have hmax : max (Nat.log 10 m) n = Nat.log 10 m := by omega
    have hlow : max (Nat.log 10 m) n - k < Nat.log 10 (extendN m n) - n := by
      rw [hWlog]; omega
    rw [repl_digit_low _ _ _ _ hlow, hWm, hmax]

theorem setN_digit_new (m n vn k : Nat) (hm : 0 < m) (hv : vn ≤ 9)
    (hd : Nat.log 10 m < k) (hk : k < n) :
    setN m n vn / 10 ^ (Nat.log 10 (setN m n vn) - k) % 10 = 0 := by
  have hn : 1 ≤ n := by omega
  rw [setN_log m n vn hm hn hv]
  unfold setN
  have hWlog : Nat.log 10 (extendN m n) = max (Nat.log 10 m) n := extendN_log m n hm
  have hhigh : Nat.log 10 (extendN m n) - n + 1 ≤ max (Nat.log 10 m) n - k := by
    rw [hWlog]; omega
  rw [repl_div_high _ _ _ _ hv hhigh]
  have h2 := extendN_digit_mid m n k hm hd (by omega)
  rw [hWlog] at h2
  exact h2

/-! ## Bridging the Int-level source functions to the Nat-level lemmas -/

theorem get_flag1_nonpos (c : Int) (k : Nat) (hc : c ≤ 0) : get_flag1 c k = -2 := by
  unfold get_flag1
  rw [if_pos hc]

theorem get_flag1_digit (m k : Nat) (hm : 0 < m) (hk : k ≤ Nat.log 10 m) :
    get_flag1 (m : Int) k = ((m / 10 ^ (Nat.log 10 m - k) % 10 : Nat) : Int) := by
  unfold get_flag1 ilog10
  rw [if_neg (by exact_mod_cast Nat.not_le.mpr hm), Int.toNat_natCast,
    if_pos hk]

theorem get_flag1_absent (m k : Nat) (hm : 0 < m) (hk : Nat.log 10 m < k) :
    get_flag1 (m : Int) k = -1 := by
  unfold get_flag1 ilog10
  rw [if_neg (by exact_mod_cast Nat.not_le.mpr hm), Int.toNat_natCast,
    if_neg (by omega)]

theorem extend1_eq (m n : Nat) : extend1 (m : Int) n = (extendN m n : Int) := by
  unfold extend1 extendN ilog10
  rw [Int.toNat_natCast]
  split
  · push_cast; ring
  · rfl

theorem delta1_eq (m n vn : Nat) (hm : 0 < m) (hn : n ≤ Nat.log 10 m) :
    delta1 (m : Int) n (vn : Int) = (repl m (Nat.log 10 m - n) vn : Int) := by
  unfold delta1 ilog10
  rw [Int.toNat_natCast, get_flag1_digit m n hm hn]
  have hd' := congrArg (fun t : Nat => (t : Int)) (digit_decomp m (Nat.log 10 m - n))
  push_cast at hd'
  unfold repl
  push_cast
  linear_combination hd'

theorem set_flag1_eq (m n vn : Nat) (hm : 0 < m) :
    set_flag1 (m : Int) n (vn : Int) = (setN m n vn : Int) := by
  unfold set_flag1 setN
  rw [extend1_eq m n]
  exact delta1_eq (extendN m n) n vn (extendN_pos m n hm)
    (by rw [extendN_log m n hm]; omega)

/-- Master theorem for one `set_flag` element on a positive code, digit value
`vn ≤ 9`, position `n ≥ 1`: the result is positive, its digit count is
`max (digit count of c) (n+1)`, its digit at position `n` is `vn`, the digits
of `c` at other positions survive, and digits newly introduced by extension
are `0`. -/
theorem set_flag1_master (c : Int) (n : Nat) (vn : Nat) (hc : 0 < c)
    (hn : 1 ≤ n) (hv : vn ≤ 9) :
    0 < set_flag1 c n (vn : Int)
    ∧ ilog10 (set_flag1 c n (vn : Int)).toNat = max (ilog10 c.toNat) n
    ∧ get_flag1 (set_flag1 c n (vn : Int)) n = (vn : Int)
    ∧ (∀ k, k ≤ ilog10 c.toNat → k ≠ n →
        get_flag1 (set_flag1 c n (vn : Int)) k = get_flag1 c k)
    ∧ (∀ k, ilog10 c.toNat < k → k < n →
        get_flag1 (set_flag1 c n (vn : Int)) k = 0) := by
  obtain ⟨m, rfl⟩ : ∃ m : Nat, c = (m : Int) :=
    ⟨c.toNat, (Int.toNat_of_nonneg hc.le).symm⟩
  have hm : 0 < m := by exact_mod_cast hc
  rw [set_flag1_eq m n vn hm]
  have hpos : 0 < setN m n vn := setN_pos m n vn hm hn hv
  have hlog := setN_log m n vn hm hn hv
  refine ⟨by exact_mod_cast hpos, ?_, ?_, ?_, ?_⟩
  · unfold ilog10
    rw [Int.toNat_natCast, Int.toNat_natCast, hlog]
  · rw [get_flag1_digit _ n hpos (by rw [hlog]; omega),
      setN_digit_at m n vn hm hn hv]
  · intro k hk hkn
    have hk' : k ≤ Nat.log 10 m := by
      unfold ilog10 at hk; rwa [Int.toNat_natCast] at hk
    rw [get_flag1_digit _ k hpos (by rw [hlog]; omega),
      setN_digit_keep m n vn k hm hn hv hk' hkn, get_flag1_digit m k hm hk']
  · intro k hdk hkn
    have hdk' : Nat.log 10 m < k := by
      unfold ilog10 at hdk; rwa [Int.toNat_natCast] at hdk
    rw [get_flag1_digit _ k hpos (by rw [hlog]; omega),
      setN_digit_new m n vn k hm hv hdk' hkn]
    norm_num

/-! ## Concrete digit counts and evaluation helpers -/

theorem log10_9 : Nat.log 10 9 = 0 :=
  Nat.log_eq_of_pow_le_of_lt_pow (by norm_num) (by norm_num)

theorem log10_90 : Nat.log 10 90 = 1 :=
  Nat.log_eq_of_pow_le_of_lt_pow (by norm_num) (by norm_num)

theorem log10_91 : Nat.log 10 91 = 1 :=
  Nat.log_eq_of_pow_le_of_lt_pow (by norm_num) (by norm_num)

theorem log10_900 : Nat.log 10 900 = 2 :=
  Nat.log_eq_of_pow_le_of_lt_pow (by norm_num) (by norm_num)

theorem log10_901 : Nat.log 10 901 = 2 :=
  Nat.log_eq_of_pow_le_of_lt_pow (by norm_num) (by norm_num)

theorem log10_9001 : Nat.log 10 9001 = 3 :=
  Nat.log_eq_of_pow_le_of_lt_pow (by norm_num) (by norm_num)

theorem log10_9201 : Nat.log 10 9201 = 3 :=
  Nat.log_eq_of_pow_le_of_lt_pow (by norm_num) (by norm_num)

theorem log10_912121212 : Nat.log 10 912121212 = 8 :=
  Nat.log_eq_of_pow_le_of_lt_pow (by norm_num) (by norm_num)

/-- Closed form of `get_flag1` on a positive code with known digit count. -/
theorem get_flag1_eval (c : Int) (d k : Nat) (hc : 0 < c)
    (hd : Nat.log 10 c.toNat = d) :
    get_flag1 c k =
      if k ≤ d then ((c.toNat / 10 ^ (d - k) % 10 : Nat) : Int) else -1 := by
  unfold get_flag1 ilog10
  rw [if_neg (not_le.mpr hc), hd]

/-! ## List helpers -/

theorem getD_map (f : Int → Int) :
    ∀ (l : List Int) (i : Nat), i < l.length → (l.map f).getD i 0 = f (l.getD i 0)
  | c :: cs, 0, _ => rfl
  | c :: cs, i + 1, h => getD_map f cs i (by simpa using h)

theorem deltaAt_getD (n : Nat) (iflag : Int) (idx : List Nat) :
    ∀ (l : List Int) (j i : Nat), i < l.length →
      (deltaAt n iflag idx j l).getD i 0 =
        if j + i ∈ idx then delta1 (l.getD i 0) n iflag else l.getD i 0 := by
  intro l
  induction l with
  | nil => intro j i h; simp at h
  | cons c cs ih =>
      intro j i h
      match i with
      | 0 => simp [deltaAt]
      | i + 1 =>
          have hlen : i < cs.length := by simpa using h
          have := ih (j + 1) i hlen
          simp only [deltaAt, List.getD_cons_succ, this]
          have harith : j + 1 + i = j + (i + 1) := by omega
          rw [harith]

theorem le_foldl_max : ∀ (l : List Int) (a : Int), a ≤ l.foldl max a := by
  intro l
  induction l with
  | nil => intro a; exact le_refl a
  | cons x t ih => intro a; exact le_trans (le_max_left a x) (ih (max a x))

theorem foldl_max_le : ∀ (l : List Int) (a b : Int), a ≤ b →
    (∀ x ∈ l, x ≤ b) → l.foldl max a ≤ b := by
  intro l
  induction l with
  | nil => intro a b ha _; exact ha
  | cons x t ih =>
      intro a b ha hl
      exact ih (max a x) b (max_le ha (hl x (List.mem_cons_self x t)))
        (fun y hy => hl y (List.mem_cons_of_mem x hy))

theorem le_foldl_max_of_mem : ∀ (l : List Int) (a x : Int), x ∈ l →
    x ≤ l.foldl max a := by
  intro l
  induction l with
  | nil => intro a x hx; simp at hx
  | cons c t ih =>
      intro a x hx
      rcases List.mem_cons.mp hx with rfl | hx
      · exact le_trans (le_max_right a x) (le_foldl_max t (max a x))
      · exact ih (max a c) x hx

theorem zipWith_max_map (l : List Int) (g h : Int → Int) :
    List.zipWith max (l.map g) (l.map h) = l.map fun c => max (g c) (h c) := by
  induction l with
  | nil => rfl
  | cons c t ih => simp [ih]

theorem foldl_get_flag (L : List Nat) :
    ∀ (flags : List Int) (g : Int → Int),
      L.foldl (fun cum ii => List.zipWith max cum (get_flag flags ii)) (flags.map g)
        = flags.map fun c => L.foldl (fun acc ii => max acc (get_flag1 c ii)) (g c) := by
  induction L with
  | nil => intro flags g; rfl
  | cons a t ih =>
      intro flags g
      simp only [List.foldl_cons]
      rw [show get_flag flags a = flags.map (fun c => get_flag1 c a) from rfl,
        zipWith_max_map flags g (fun c => get_flag1 c a),
        ih flags (fun c => max (g c) (get_flag1 c a))]

/-- Lemma: `get_maxflag` is, elementwise, the claim's max-reduction over
positions 1..18 bootstrapped at `-2`. -/
theorem get_maxflag_eq_map (flags : List Int) :
    get_maxflag flags = flags.map maxflag_claim := by
  unfold get_maxflag
  rw [foldl_get_flag]
  unfold maxflag_claim
  simp only [List.foldl_map]

/-! ## Bounds and precedence facts for the aggregate -/

theorem maxflag_claim_ub (c : Int) (b : Int) (hb : -2 ≤ b)
    (h : ∀ k, 1 ≤ k → k ≤ 18 → get_flag1 c k ≤ b) : maxflag_claim c ≤ b := by
  apply foldl_max_le _ _ _ hb
  intro x hx
  obtain ⟨k, hk, rfl⟩ := List.mem_map.mp hx
  rw [List.mem_range'_1] at hk
  exact h k hk.1 (by omega)

theorem maxflag_claim_lb (c : Int) (k : Nat) (h1 : 1 ≤ k) (h2 : k ≤ 18) :
    get_flag1 c k ≤ maxflag_claim c :=
  le_foldl_max_of_mem _ _ _
    (List.mem_map.mpr ⟨k, List.mem_range'_1.mpr ⟨h1, by omega⟩, rfl⟩)

theorem maxflag_claim_sentinel (c : Int) (hc : c ≤ 0) : maxflag_claim c = -2 := by
  refine le_antisymm (maxflag_claim_ub c (-2) (le_refl _) ?_) (le_foldl_max _ _)
  intro k _ _
  rw [get_flag1_nonpos c k hc]

theorem maxflag_claim_primary (c : Int) (hc : 0 < c)
    (h0 : Nat.log 10 c.toNat = 0) : maxflag_claim c = -1 := by
  have habs : ∀ k, 1 ≤ k → get_flag1 c k = -1 := by
    intro k hk
    rw [get_flag1_eval c 0 k hc h0, if_neg (by omega)]
  refine le_antisymm (maxflag_claim_ub c (-1) (by norm_num) ?_) ?_
  · intro k h1 _
    rw [habs k h1]
  · have := maxflag_claim_lb c 1 (le_refl 1) (by norm_num)
    rwa [habs 1 (le_refl 1)] at this

theorem maxflag_claim_zero (c : Int) (hc : 0 < c) (h1 : 1 ≤ Nat.log 10 c.toNat)
    (h : ∀ k, 1 ≤ k → k ≤ 18 → get_flag1 c k ≤ 0) : maxflag_claim c = 0 := by
  refine le_antisymm (maxflag_claim_ub c 0 (by norm_num) h) ?_
  have hval : get_flag1 c 1 =
      ((c.toNat / 10 ^ (Nat.log 10 c.toNat - 1) % 10 : Nat) : Int) := by
    rw [get_flag1_eval c (Nat.log 10 c.toNat) 1 hc rfl, if_pos h1]
  have hnn : (0 : Int) ≤ get_flag1 c 1 := by
    rw [hval]; exact Int.natCast_nonneg _
  exact le_trans hnn (maxflag_claim_lb c 1 (le_refl 1) (by norm_num))

theorem maxflag_claim_hit (c : Int) (v : Int) (hv : -2 ≤ v)
    (hex : ∃ k, 1 ≤ k ∧ k ≤ 18 ∧ get_flag1 c k = v)
    (hub : ∀ k, 1 ≤ k → k ≤ 18 → get_flag1 c k ≤ v) : maxflag_claim c = v := by
  obtain ⟨k, h1, h2, hk⟩ := hex
  refine le_antisymm (maxflag_claim_ub c v hv hub) ?_
  have := maxflag_claim_lb c k h1 h2
  rwa [hk] at this

/-! ## Evaluating the aggregate on the doctest codes -/

theorem mf_9 : maxflag_claim 9 = -1 :=
  maxflag_claim_primary 9 (by norm_num)
    (by simp only [show Int.toNat 9 = 9 from rfl, log10_9])

theorem mf_90 : maxflag_claim 90 = 0 := by
  have il : Nat.log 10 (Int.toNat 90) = 1 := by
    simp only [show Int.toNat 90 = 90 from rfl, log10_90]
  apply maxflag_claim_zero 90 (by norm_num) il.ge
  intro k h1 h18
  rw [get_flag1_eval 90 1 k (by norm_num) il]
  rcases le_or_lt k 1 with h | h
  · rw [if_pos h]
    interval_cases k
    norm_num [show Int.toNat 90 = 90 from rfl]
  · rw [if_neg (by omega)]
    norm_num

theorem mf_91 : maxflag_claim 91 = 1 := by
  have il : Nat.log 10 (Int.toNat 91) = 1 := by
    simp only [show Int.toNat 91 = 91 from rfl, log10_91]
  apply maxflag_claim_hit 91 1 (by norm_num)
  · refine ⟨1, le_refl 1, by norm_num, ?_⟩
    rw [get_flag1_eval 91 1 1 (by norm_num) il]
    norm_num [show Int.toNat 91 = 91 from rfl]
  · intro k h1 h18
    rw [get_flag1_eval 91 1 k (by norm_num) il]
    rcases le_or_lt k 1 with h | h
    · rw [if_pos h]
      interval_cases k
      norm_num [show Int.toNat 91 = 91 from rfl]
    · rw [if_neg (by omega)]
      norm_num

theorem mf_900 : maxflag_claim 900 = 0 := by
  have il : Nat.log 10 (Int.toNat 900) = 2 := by
    simp only [show Int.toNat 900 = 900 from rfl, log10_900]
  apply maxflag_claim_zero 900 (by norm_num) (by omega)
  intro k h1 h18
  rw [get_flag1_eval 900 2 k (by norm_num) il]
  rcases le_or_lt k 2 with h | h
  · rw [if_pos h]
    interval_cases k <;> norm_num [show Int.toNat 900 = 900 from rfl]
  · rw [if_neg (by omega)]
    norm_num

theorem mf_901 : maxflag_claim 901 = 1 := by
  have il : Nat.log 10 (Int.toNat 901) = 2 := by
    simp only [show Int.toNat 901 = 901 from rfl, log10_901]
  apply maxflag_claim_hit 901 1 (by norm_num)
  · refine ⟨2, by norm_num, by norm_num, ?_⟩
    rw [get_flag1_eval 901 2 2 (by norm_num) il]
    norm_num [show Int.toNat 901 = 901 from rfl]
  · intro k h1 h18
    rw [get_flag1_eval 901 2 k (by norm_num) il]
    rcases le_or_lt k 2 with h | h
    · rw [if_pos h]
      interval_cases k <;> norm_num [show Int.toNat 901 = 901 from rfl]
    · rw [if_neg (by omega)]
      norm_num

theorem mf_9001 : maxflag_claim 9001 = 1 := by
  have il : Nat.log 10 (Int.toNat 9001) = 3 := by
    simp only [show Int.toNat 9001 = 9001 from rfl, log10_9001]
  apply maxflag_claim_hit 9001 1 (by norm_num)
  · refine ⟨3, by norm_num, by norm_num, ?_⟩
    rw [get_flag1_eval 9001 3 3 (by norm_num) il]
    norm_num [show Int.toNat 9001 = 9001 from rfl]
  · intro k h1 h18
    rw [get_flag1_eval 9001 3 k (by norm_num) il]
    rcases le_or_lt k 3 with h | h
    · rw [if_pos h]
      interval_cases k <;> norm_num [show Int.toNat 9001 = 9001 from rfl]
    · rw [if_neg (by omega)]
      norm_num

theorem mf_9201 : maxflag_claim 9201 = 2 := by
  have il : Nat.log 10 (Int.toNat 9201) = 3 := by
    simp only [show Int.toNat 9201 = 9201 from rfl, log10_9201]
  apply maxflag_claim_hit 9201 2 (by norm_num)
  · refine ⟨1, le_refl 1, by norm_num, ?_⟩
    rw [get_flag1_eval 9201 3 1 (by norm_num) il]
    norm_num [show Int.toNat 9201 = 9201 from rfl]
  · intro k h1 h18
    rw [get_flag1_eval 9201 3 k (by norm_num) il]
    rcases le_or_lt k 3 with h | h
    · rw [if_pos h]
      interval_cases k <;> norm_num [show Int.toNat 9201 = 9201 from rfl]
    · rw [if_neg (by omega)]
      norm_num

theorem mf_912121212 : maxflag_claim 912121212 = 2 := by
  have il : Nat.log 10 (Int.toNat 912121212) = 8 := by
    simp only [show Int.toNat 912121212 = 912121212 from rfl, log10_912121212]
  apply maxflag_claim_hit 912121212 2 (by norm_num)
  · refine ⟨2, by norm_num, by norm_num, ?_⟩
    rw [get_flag1_eval 912121212 8 2 (by norm_num) il]
    norm_num [show Int.toNat 912121212 = 912121212 from rfl]
  · intro k h1 h18
    rw [get_flag1_eval 912121212 8 k (by norm_num) il]
    rcases le_or_lt k 8 with h | h
    · rw [if_pos h]
      interval_cases k <;> norm_num [show Int.toNat 912121212 = 912121212 from rfl]
    · rw [if_neg (by omega)]
      norm_num

theorem mf_neg9999 : maxflag_claim (-9999) = -2 :=
  maxflag_claim_sentinel (-9999) (by norm_num)

theorem get_maxflag_example :
    get_maxflag [9, 90, 91, 900, 901, 9001, 9201, 912121212, -9999]
      = [-1, 0, 1, 0, 1, 1, 2, 2, -2] := by
  rw [get_maxflag_eq_map]
  simp only [List.map_cons, List.map_nil, mf_9, mf_90, mf_91, mf_900, mf_901,
    mf_9001, mf_9201, mf_912121212, mf_neg9999]

/-! ## The claims -/

theorem get_flag1_eq_extract_claim (c : Int) (n : Nat) :
    get_flag1 c n = extract_claim c n := by
  unfold get_flag1 extract_claim ilog10
  rcases le_or_lt c 0 with hc | hc
  · rw [if_pos hc, if_pos hc]
  · rw [if_neg (not_le.mpr hc), if_neg (not_le.mpr hc)]
    rcases le_or_lt n (Nat.log 10 c.toNat) with h | h
    · rw [if_pos h, if_neg (by push_cast; omega), Nat.add_sub_cancel]
    · rw [if_neg (by omega), if_pos (by push_cast; omega)]

theorem get_flag1_zero_leading (c : Int) (hc : 0 < c) :
    get_flag1 c 0 = (leadingDigit c.toNat : Int) := by
  rw [get_flag1_eval c (Nat.log 10 c.toNat) 0 hc rfl, if_pos (Nat.zero_le _)]
  unfold leadingDigit
  congr 1
  rw [Nat.sub_zero]
  apply Nat.mod_eq_of_lt
  have h2 := lt_pow_log_succ c.toNat
  rw [pow_succ] at h2
  rw [Nat.div_lt_iff_lt_mul (Nat.pos_pow_of_pos _ (by norm_num)), Nat.mul_comm]
  exact h2

/-- C1: `get_flag` returns, elementwise, `-2` for inputs `<= 0`, `-1` for a
positive input whose digit count `d = floor(log10 value) + 1` has
`d - 1 - n < 0`, and otherwise the decimal digit
`(value // 10^(d-1-n)) mod 10`; in particular at position `0` it returns the
leading digit of every positive code. -/
theorem get_flag_matches_extract_claim (flags : List Int) (n : Nat) :
    get_flag flags n = flags.map (fun c => extract_claim c n)
    ∧ ∀ c : Int, 0 < c → get_flag1 c 0 = (leadingDigit c.toNat : Int) := by
  constructor
  · unfold get_flag
    simp only [get_flag1_eq_extract_claim]
  · exact fun c hc => get_flag1_zero_leading c hc

theorem get_flag_matches_extract_claim_witness :
    (0 : Int) < 9201
    ∧ get_flag1 9201 0 = (leadingDigit (9201 : Int).toNat : Int) :=
  ⟨by norm_num, (get_flag_matches_extract_claim [] 0).2 9201 (by norm_num)⟩

theorem digit_value_cases (v : Int) (hv : v = 0 ∨ v = 1 ∨ v = 2) :
    ∃ vn : Nat, vn ≤ 9 ∧ v = (vn : Nat) := by
  rcases hv with rfl | rfl | rfl
  · exact ⟨0, by norm_num, by norm_num⟩
  · exact ⟨1, by norm_num, by norm_num⟩
  · exact ⟨2, by norm_num, by norm_num⟩

/-- C2: round-trip: for every positive code `c`, position `n ≥ 1` and digit
value `v ∈ {0,1,2}`, extracting position `n` after `set` returns `v`, and
every digit of `c` at a position other than `n` is unchanged. -/
theorem set_then_get_roundtrip (c : Int) (n : Nat) (v : Int) (hc : 0 < c)
    (hn : 1 ≤ n) (hv : v = 0 ∨ v = 1 ∨ v = 2) :
    get_flag1 (set_flag1 c n v) n = v
    ∧ ∀ k, k ≤ ilog10 c.toNat → k ≠ n →
        get_flag1 (set_flag1 c n v) k = get_flag1 c k := by
  obtain ⟨vn, hvn, rfl⟩ := digit_value_cases v hv
  obtain ⟨-, -, h3, h4, -⟩ := set_flag1_master c n vn hc hn hvn
  exact ⟨h3, h4⟩

theorem set_then_get_roundtrip_witness :
    (0 : Int) < 901 ∧ (1 : Nat) ≤ 2
    ∧ ((2 : Int) = 0 ∨ (2 : Int) = 1 ∨ (2 : Int) = 2)
    ∧ (get_flag1 (set_flag1 901 2 2) 2 = 2
       ∧ ∀ k, k ≤ ilog10 (901 : Int).toNat → k ≠ 2 →
           get_flag1 (set_flag1 901 2 2) k = get_flag1 901 k) :=
  ⟨by norm_num, by norm_num, by norm_num,
    set_then_get_roundtrip 901 2 2 (by norm_num) (by norm_num) (by norm_num)⟩

/-- C3: `get_maxflag` is, elementwise, the maximum of `-2` and the extracted
sub-flags at positions 1..18; under the domain convention that sub-flag
digits are at most 2, any digit 2 gives 2, else any digit 1 gives 1, else a
positive multi-digit code with no positive sub-flag gives 0, a positive
single-digit code gives -1, and a sentinel input gives -2; and on the
doctest array it returns `[-1, 0, 1, 0, 1, 1, 2, 2, -2]`. -/
theorem get_maxflag_precedence (flags : List Int) (c : Int) :
    get_maxflag flags = flags.map maxflag_claim
    ∧ ((∃ k, 1 ≤ k ∧ k ≤ 18 ∧ get_flag1 c k = 2) →
        (∀ k, 1 ≤ k → k ≤ 18 → get_flag1 c k ≤ 2) → maxflag_claim c = 2)
    ∧ ((∃ k, 1 ≤ k ∧ k ≤ 18 ∧ get_flag1 c k = 1) →
        (∀ k, 1 ≤ k → k ≤ 18 → get_flag1 c k ≤ 1) → maxflag_claim c = 1)
    ∧ (0 < c → 1 ≤ ilog10 c.toNat →
        (∀ k, 1 ≤ k → k ≤ 18 → get_flag1 c k ≤ 0) → maxflag_claim c = 0)
    ∧ (0 < c → ilog10 c.toNat = 0 → maxflag_claim c = -1)
    ∧ (c ≤ 0 → maxflag_claim c = -2)
    ∧ get_maxflag [9, 90, 91, 900, 901, 9001, 9201, 912121212, -9999]
        = [-1, 0, 1, 0, 1, 1, 2, 2, -2] :=
  ⟨get_maxflag_eq_map flags,
   fun hex hub => maxflag_claim_hit c 2 (by norm_num) hex hub,
   fun hex hub => maxflag_claim_hit c 1 (by norm_num) hex hub,
   fun hc h1 hub => maxflag_claim_zero c hc h1 hub,
   fun hc h0 => maxflag_claim_primary c hc h0,
   fun hc => maxflag_claim_sentinel c hc,
   get_maxflag_example⟩

theorem get_maxflag_precedence_witness :
    ((-7 : Int) ≤ 0) ∧ maxflag_claim (-7) = -2 :=
  ⟨by norm_num, (get_maxflag_precedence [] (-7)).2.2.2.2.2.1 (by norm_num)⟩

/-- C4: setting at a position `n` at or beyond the digit count of a positive
code yields digit count exactly `n+1`, keeps the digits of `c`, puts `v` at
position `n`, and fills the newly introduced intermediate positions with 0. -/
theorem set_flag_extends_short_codes (c : Int) (n : Nat) (v : Int) (hc : 0 < c)
    (hshort : ilog10 c.toNat + 1 ≤ n) (hv : v = 0 ∨ v = 1 ∨ v = 2) :
    ilog10 (set_flag1 c n v).toNat + 1 = n + 1
    ∧ (∀ k, k ≤ ilog10 c.toNat → get_flag1 (set_flag1 c n v) k = get_flag1 c k)
    ∧ get_flag1 (set_flag1 c n v) n = v
    ∧ (∀ k, ilog10 c.toNat < k → k < n → get_flag1 (set_flag1 c n v) k = 0) := by
  obtain ⟨vn, hvn, rfl⟩ := digit_value_cases v hv
  have hn : 1 ≤ n := by omega
  obtain ⟨-, h2, h3, h4, h5⟩ := set_flag1_master c n vn hc hn hvn
  refine ⟨?_, fun k hk => h4 k hk (by omega), h3, h5⟩
  rw [h2, max_eq_right (by omega)]

theorem set_flag_extends_short_codes_witness :
    (0 : Int) < 9 ∧ ilog10 (9 : Int).toNat + 1 ≤ 3
    ∧ ((2 : Int) = 0 ∨ (2 : Int) = 1 ∨ (2 : Int) = 2)
    ∧ (ilog10 (set_flag1 9 3 2).toNat + 1 = 3 + 1
       ∧ (∀ k, k ≤ ilog10 (9 : Int).toNat →
           get_flag1 (set_flag1 9 3 2) k = get_flag1 9 k)
       ∧ get_flag1 (set_flag1 9 3 2) 3 = 2
       ∧ (∀ k, ilog10 (9 : Int).toNat < k → k < 3 →
           get_flag1 (set_flag1 9 3 2) k = 0)) := by
  have hd : ilog10 (9 : Int).toNat + 1 ≤ 3 := by
    simp only [ilog10, show Int.toNat 9 = 9 from rfl, log10_9]
    omega
  exact ⟨by norm_num, hd, by norm_num,
    set_flag_extends_short_codes 9 3 2 (by norm_num) hd (by norm_num)⟩

theorem extend1_9_3 : extend1 9 3 = 9000 := by
  unfold extend1 ilog10
  simp only [show Int.toNat 9 = 9 from rfl, log10_9]
  norm_num

/-- C5 counterexample: `set_flag` changes an entry at an index NOT in `ii`
when that entry has fewer than `n+1` digits: with `flags = [9]`, `n = 3`,
`ii = []` the single entry is selected by no index, yet the result is
`[9000]`, not `[9]` as the claim requires. -/
theorem set_flag_unselected_changed_cex :
    set_flag [9] 3 2 (some []) = [9000] ∧ ((9000 : Int) ≠ 9) := by
  refine ⟨?_, by norm_num⟩
  show deltaAt 3 2 [] 0 ([9].map fun c => extend1 c 3) = [9000]
  simp only [List.map_cons, List.map_nil, extend1_9_3, deltaAt]
  norm_num

/-- C5 amended: an entry at an index not in `ii` is not given the flag value,
but it is still put through the extension pass: the result there is the entry
itself when it already has more than `n` digits, and the entry zero-extended
(multiplied by `10^(n - floor(log10 entry))`) when it has at most `n`. -/
theorem set_flag_unselected_extended_only (flags : List Int) (n : Nat)
    (iflag : Int) (idx : List Nat) (i : Nat) (hi : i < flags.length)
    (hni : i ∉ idx) :
    (set_flag flags n iflag (some idx)).getD i 0 = extend1 (flags.getD i 0) n := by
  show (deltaAt n iflag idx 0 (flags.map fun c => extend1 c n)).getD i 0 = _
  rw [deltaAt_getD n iflag idx _ 0 i (by simpa using hi)]
  rw [if_neg (by simpa using hni)]
  exact getD_map _ flags i hi

theorem set_flag_unselected_extended_only_witness :
    (0 : Nat) < [(9 : Int), 9000].length ∧ (0 : Nat) ∉ [(1 : Nat)]
    ∧ (set_flag [9, 9000] 3 2 (some [1])).getD 0 0
        = extend1 ([(9 : Int), 9000].getD 0 0) 3 :=
  ⟨by decide, by decide,
    set_flag_unselected_extended_only [9, 9000] 3 2 [1] 0 (by decide) (by decide)⟩

/-- C6: `set_flag` first copies the input array into a fresh working buffer
`fflags` and every subsequent write targets only that buffer, so after the
call the input buffer holds its original values and the returned array is the
separate working buffer. -/
theorem set_flag_copy_on_write (flags : List Int) (n : Nat) (iflag : Int)
    (ii : Option (List Nat)) :
    (set_flag_run flags n iflag ii).input = flags
    ∧ (set_flag_run flags n iflag ii).fflags = set_flag flags n iflag ii := by
  cases ii
  · exact ⟨rfl, rfl⟩
  · exact ⟨rfl, rfl⟩

/-- C7: `set` is idempotent: setting the same position to the same digit
value twice equals setting it once. -/
theorem set_flag_idem (c : Int) (n : Nat) (v : Int) (hc : 0 < c) (hn : 1 ≤ n)
    (hv : v = 0 ∨ v = 1 ∨ v = 2) :
    set_flag1 (set_flag1 c n v) n v = set_flag1 c n v := by
  obtain ⟨vn, hvn, rfl⟩ := digit_value_cases v hv
  obtain ⟨hpos, hlog, hdig, -, -⟩ := set_flag1_master c n vn hc hn hvn
  have hext : extend1 (set_flag1 c n (vn : Int)) n = set_flag1 c n (vn : Int) := by
    unfold extend1
    rw [if_neg]
    rw [hlog]
    exact not_lt.mpr (le_max_right _ _)
  show delta1 (extend1 (set_flag1 c n (vn : Int)) n) n (vn : Int)
      = set_flag1 c n (vn : Int)
  rw [hext]
  unfold delta1
  rw [hdig]
  ring

theorem set_flag_idem_witness :
    (0 : Int) < 901 ∧ (1 : Nat) ≤ 1
    ∧ ((2 : Int) = 0 ∨ (2 : Int) = 1 ∨ (2 : Int) = 2)
    ∧ set_flag1 (set_flag1 901 1 2) 1 2 = set_flag1 901 1 2 :=
  ⟨by norm_num, le_refl 1, by norm_num,
    set_flag_idem 901 1 2 (by norm_num) (le_refl 1) (by norm_num)⟩

/-- C8: `division` is the elementwise guard: it returns `a / b` where
`|b| > |prec|` and the fallback value where `|b| ≤ |prec|`; with the default
threshold `prec = 0`, division by zero yields the fallback. -/
theorem division_guard (a b oth prec : ℚ) (xs ys : List ℚ) :
    division xs ys oth prec
        = List.zipWith (fun x y => division1 x y oth prec) xs ys
    ∧ (|prec| < |b| → division1 a b oth prec = a / b)
    ∧ (|b| ≤ |prec| → division1 a b oth prec = oth)
    ∧ division1 a 0 oth 0 = oth := by
  refine ⟨rfl, fun h => ?_, fun h => ?_, ?_⟩
  · unfold division1
    rw [if_pos h]
  · unfold division1
    rw [if_neg (not_lt.mpr h)]
  · unfold division1
    rw [if_neg (by norm_num)]

theorem division_guard_witness :
    |(0 : ℚ)| < |(2 : ℚ)| ∧ division1 1 2 0 0 = 1 / 2
    ∧ |(0 : ℚ)| ≤ |(0 : ℚ)| ∧ division1 1 0 5 0 = 5 :=
  ⟨by norm_num, (division_guard 1 2 0 0 [] []).2.1 (by norm_num),
   le_refl _, (division_guard 1 0 5 0 [] []).2.2.1 (le_refl _)⟩

/-- C9: calling `heaviside` with both `zero=True` and `unitstep=True` raises
`ValueError` for every input, producing no result array. -/
theorem heaviside_flags_exclusive (x : List ℚ) (value : ℚ) :
    heaviside x value true true
      = Except.error "unitstep and zero mutually exclusive." := rfl

/-- C10: with the defaults `heaviside` maps `x < 0` to 0, `x = 0` to
`value * 1/2` and `x > 0` to `value`; with `zero=True` it maps `x ≤ 0` to 0
and `x > 0` to `value`; with `unitstep=True` it maps `x < 0` to 0 and
`x ≥ 0` to `value`, elementwise. -/
theorem heaviside_piecewise (t v : ℚ) (xs : List ℚ) :
    heaviside xs v false false = Except.ok (xs.map fun s => heaviside1 s v)
    ∧ heaviside xs v false true = Except.ok (xs.map fun s => heaviside1_zero s v)
    ∧ heaviside xs v true false
        = Except.ok (xs.map fun s => heaviside1_unitstep s v)
    ∧ (t < 0 → heaviside1 t v = 0)
    ∧ (t = 0 → heaviside1 t v = v * (1 / 2))
    ∧ (0 < t → heaviside1 t v = v)
    ∧ (t ≤ 0 → heaviside1_zero t v = 0)
    ∧ (0 < t → heaviside1_zero t v = v)
    ∧ (t < 0 → heaviside1_unitstep t v = 0)
    ∧ (0 ≤ t → heaviside1_unitstep t v = v) := by
  refine ⟨rfl, rfl, rfl, fun h => ?_, fun h => ?_, fun h => ?_, fun h => ?_,
    fun h => ?_, fun h => ?_, fun h => ?_⟩
  · unfold heaviside1
    rw [if_neg (by linarith), if_pos h]
    ring
  · subst h
    unfold heaviside1
    rw [if_neg (by norm_num)]
    ring
  · unfold heaviside1
    rw [if_pos h, if_neg (by linarith)]
    ring
  · unfold heaviside1_zero
    rw [if_neg (not_lt.mpr h)]
    ring
  · unfold heaviside1_zero
    rw [if_pos h]
    ring
  · unfold heaviside1_unitstep
    rw [if_neg (not_le.mpr h)]
    ring
  · unfold heaviside1_unitstep
    rw [if_pos h]
    ring

theorem heaviside_piecewise_witness :
    ((-1 : ℚ) < 0) ∧ heaviside1 (-1) 3 = 0 ∧ heaviside1 0 3 = 3 * (1 / 2)
    ∧ heaviside1_zero 0 3 = 0 :=
  ⟨by norm_num, (heaviside_piecewise (-1) 3 []).2.2.2.1 (by norm_num),
   (heaviside_piecewise 0 3 []).2.2.2.2.1 rfl,
   (heaviside_piecewise 0 3 []).2.2.2.2.2.2.1 (le_refl 0)⟩

end Jams
